import Mathlib

/-
Verification of the producer / bounded-FIFO / consumer performance model
(perf_model.cpp).

The C++ source is shallowly embedded as follows.

Machine integers: every fifo bookkeeping field in the source is a uint32_t,
so every arithmetic update in the embedding is taken modulo U32 = 2^32
exactly where the source performs uint32_t arithmetic.  Simulated time
(sc_time) is only ever assigned inside the fifo, never computed with, and
is embedded as a plain natural number of nanoseconds.

Blocking: the SystemC calls wait(read_event) / wait(write_event) are
suspension points of a cooperative scheduler.  The fifo operations are
split exactly along those suspension points:
  - fifo_write / fifo_read perform the entry part of the member function,
    up to and including the single fullness / emptiness check, and either
    complete or report suspension;
  - fifo_write_resume / fifo_read_resume are the code that runs after the
    wait call returns.  The source performs NO further check there: control
    falls straight into the buffer update, which the resume functions
    mirror.
The event notify() calls have no effect on the fifo state itself and are
not part of the state.

Traces: run executes a list of completed operations (an interleaving as
produced by the cooperative scheduler, with each blocking call charged at
the instant it completes).  A put facing a full queue or a take facing an
empty queue would block forever at that point of the trace, so run returns
none for such a trace.
-/

def U32 : Nat := 4294967296

/-- State of the fifo channel: the private fields of class fifo.
data is the backing uint32_t array, embedded as a total function from
index to stored value (the source array is uninitialized; the embedding
initializes to 0, and no claim depends on unwritten slots). -/
structure Fifo where
  fifo_size : Nat
  data : Nat → Nat
  wr_ptr : Nat
  rd_ptr : Nat
  buffer_size : Nat
  read_count : Nat
  max_buffered : Nat
  average_acc : Nat
  last_time : Nat

/-- The fifo constructor: all counters zeroed, pointers zeroed. -/
def fifo_init (fifo_size : Nat) : Fifo :=
  { fifo_size := fifo_size
    data := fun _ => 0
    wr_ptr := 0
    rd_ptr := 0
    buffer_size := 0
    read_count := 0
    max_buffered := 0
    average_acc := 0
    last_time := 0 }

/-- compute_status from the source: average_acc += buffer_size;
if (buffer_size > max_buffered) max_buffered = buffer_size; read_count++.
It runs before the element is removed, so the buffer_size it reads is the
pre-removal occupancy. -/
def compute_status (s : Fifo) : Fifo :=
  let s1 : Fifo := { s with average_acc := (s.average_acc + s.buffer_size) % U32 }
  let s2 : Fifo :=
    if s1.buffer_size > s1.max_buffered then { s1 with max_buffered := s1.buffer_size } else s1
  { s2 with read_count := (s2.read_count + 1) % U32 }

/-- The unconditional body of fifo::write after any wait has returned:
data[wr_ptr++] = pd; buffer_size++; wr_ptr = (wr_ptr==fifo_size) ? 0 : wr_ptr.
The uint32_t post-increment of wr_ptr is (wr_ptr + 1) % U32, compared with
fifo_size afterwards, exactly as in the source. -/
def write_commit (s : Fifo) (pd : Nat) : Fifo :=
  { s with
    data := fun j => if j = s.wr_ptr then pd else s.data j
    wr_ptr := if (s.wr_ptr + 1) % U32 = s.fifo_size then 0 else (s.wr_ptr + 1) % U32
    buffer_size := (s.buffer_size + 1) % U32 }

/-- The part of fifo::read after any wait has returned: compute_status();
pd = data[rd_ptr++]; buffer_size--; rd_ptr = (rd_ptr==fifo_size) ? 0 : rd_ptr.
The uint32_t decrement buffer_size-- is (buffer_size + (U32 - 1)) % U32. -/
def read_body (s : Fifo) : Fifo × Nat :=
  let s1 := compute_status s
  let pd := s1.data s1.rd_ptr
  let s2 : Fifo :=
    { s1 with
      rd_ptr := if (s1.rd_ptr + 1) % U32 = s1.fifo_size then 0 else (s1.rd_ptr + 1) % U32
      buffer_size := (s1.buffer_size + (U32 - 1)) % U32 }
  (s2, pd)

/-- Outcome of entering fifo::write: either the body ran to completion, or
the caller is suspended inside wait(read_event) with the state unchanged. -/
inductive WriteOutcome
  | completed (s : Fifo)
  | suspended (s : Fifo)

/-- Outcome of entering fifo::read: either the body ran to completion
(returning the new state and the popped value), or the caller is suspended
inside wait(write_event); last_time has already been assigned in either
case, because the source assigns it first thing on entry. -/
inductive ReadOutcome
  | completed (p : Fifo × Nat)
  | suspended (s : Fifo)

/-- fifo::write up to its single suspension point: the fullness test is an
if, performed once on entry; a non-full queue proceeds directly to the
body. -/
def fifo_write (s : Fifo) (pd : Nat) : WriteOutcome :=
  if s.buffer_size = s.fifo_size then WriteOutcome.suspended s
  else WriteOutcome.completed (write_commit s pd)

/-- Code of fifo::write that runs when wait(read_event) returns: the
source falls straight into the buffer update with no re-check of the
fullness condition. -/
def fifo_write_resume (s : Fifo) (pd : Nat) : Fifo :=
  write_commit s pd

/-- fifo::read up to its single suspension point.  t_now is the value of
sc_time_stamp() at entry: the source stores it into last_time before the
emptiness test, so both outcomes carry the updated last_time. -/
def fifo_read (s : Fifo) (t_now : Nat) : ReadOutcome :=
  let s1 : Fifo := { s with last_time := t_now }
  if s1.buffer_size = 0 then ReadOutcome.suspended s1
  else ReadOutcome.completed (read_body s1)

/-- Code of fifo::read that runs when wait(write_event) returns: the
source falls straight into compute_status and the pop, with no re-check of
emptiness and no fresh reading of the clock (t_now, the simulated time at
resumption, is ignored by the source). -/
def fifo_read_resume (s : Fifo) (t_now : Nat) : Fifo × Nat :=
  read_body s

/-- fifo::reset. -/
def fifo_reset (s : Fifo) : Fifo :=
  { s with buffer_size := 0, wr_ptr := 0, rd_ptr := 0 }

/-- fifo::get_buffer_size. -/
def get_buffer_size (s : Fifo) : Nat := s.buffer_size

/-- fifo::is_empty. -/
def is_empty (s : Fifo) : Bool := s.buffer_size == 0

/-- fifo::is_full. -/
def is_full (s : Fifo) : Bool := s.buffer_size == s.fifo_size

/-- Statistics printed by the fifo destructor: fifo_size, then
average_acc / read_count, last_time / read_count, read_count, last_time. -/
structure Stats where
  fifoSize : Nat
  avgFillDepth : ℚ
  avgTransferTime : ℚ
  totalTransferred : Nat
  totalTime : Nat

/-- Division as performed by the destructor: the source divides by
read_count with no guard; for read_count = 0 the double division is
non-finite and the sc_time division is an integer division by zero, so the
result is undefined, embedded as none. -/
def div_stat (a : ℚ) (b : Nat) : Option ℚ :=
  if b = 0 then none else some (a / (b : ℚ))

/-- The fifo destructor report.  It is defined exactly when both divisions
by read_count are defined; the source contains no branch on read_count. -/
def fifo_finalize (s : Fifo) : Option Stats :=
  match div_stat (s.average_acc : ℚ) s.read_count, div_stat (s.last_time : ℚ) s.read_count with
  | some avg, some att => some ⟨s.fifo_size, avg, att, s.read_count, s.last_time⟩
  | _, _ => none

/-- glibc RAND_MAX, the divisor in the burst-length expression. -/
def RAND_MAX : Nat := 2147483647

/-- The burst length drawn by producer::main from one rand() value r:
1 + uint32_t(19.0 * r / RAND_MAX).  For 0 <= r <= RAND_MAX the double
computation is exact enough that the truncation equals the rational floor:
19 * r < 2^53 is exactly representable, and the quotients 19 * r / RAND_MAX
that are not themselves integers lie at distance at least 1 / RAND_MAX
(about 4.7e-10) from the nearest integer, far above the rounding error of
one double division (about 2e-15), so rounding never crosses an integer
boundary and the uint32_t cast computes the natural-number quotient. -/
def burst_len (r : Nat) : Nat :=
  1 + 19 * r / RAND_MAX

/-- The loop of producer::main, parameterized by the running total_loop
counter (an int in the source) and the stream of rand() draws, one per
burst.  Each burst writes burst_len r items (the inner while runs to the
end of the burst even if total_loop falls to zero or below inside it) and
the loop exits when total_loop <= 0 after a burst.  Returns the total
number of items written, or none if the draw stream is exhausted first. -/
def producer_loop : Int → List Nat → Option Nat
  | _, [] => none
  | tl, r :: rest =>
    let b := burst_len r
    let tl2 := tl - (b : Int)
    if tl2 ≤ 0 then some b
    else (producer_loop tl2 rest).map (fun n => b + n)

/-- producer::main starts from int total_loop = 10000. -/
def producer_writes (draws : List Nat) : Option Nat :=
  producer_loop 10000 draws

/-- One completed operation of a scheduler trace: a put of a value, a take
invoked at a given simulated time (the value of sc_time_stamp() when the
consumer enters read), or a reset. -/
inductive Op
  | put (v : Nat)
  | take (t : Nat)
  | reset
  deriving DecidableEq

/-- Execute a trace of completed operations.  Returns the final fifo
state, the list of values returned by the takes in order, and the list of
pre-removal occupancies recorded by compute_status, one per take, in
order.  A put that would suspend on a full queue or a take that would
suspend on an empty queue blocks forever at that point, so the trace has
no completed execution: none. -/
def run : Fifo → List Op → Option (Fifo × List Nat × List Nat)
  | s, [] => some (s, [], [])
  | s, Op.put v :: rest =>
    match fifo_write s v with
    | WriteOutcome.completed s2 => run s2 rest
    | WriteOutcome.suspended _ => none
  | s, Op.take t :: rest =>
    match fifo_read s t with
    | ReadOutcome.completed p =>
      (run p.1 rest).map (fun q => (q.1, p.2 :: q.2.1, s.buffer_size :: q.2.2))
    | ReadOutcome.suspended _ => none
  | s, Op.reset :: rest => run (fifo_reset s) rest

/-- Number of put operations in a trace. -/
def numPuts : List Op → Nat
  | [] => 0
  | Op.put _ :: rest => numPuts rest + 1
  | _ :: rest => numPuts rest

/-- Number of take operations in a trace. -/
def numTakes : List Op → Nat
  | [] => 0
  | Op.take _ :: rest => numTakes rest + 1
  | _ :: rest => numTakes rest

/-- Values passed to put, in trace order. -/
def putsOf : List Op → List Nat
  | [] => []
  | Op.put v :: rest => v :: putsOf rest
  | _ :: rest => putsOf rest

/-- Abstract contents of the ring buffer, oldest first: buffer_size
elements starting at rd_ptr, wrapping modulo fifo_size. -/
def fifoList (s : Fifo) : List Nat :=
  (List.range s.buffer_size).map (fun k => s.data ((s.rd_ptr + k) % s.fifo_size))

/-- Structural well-formedness of a fifo state: positive capacity that
fits in uint32_t, occupancy within capacity, read pointer in range, write
pointer determined by the ring discipline, and the uint32_t counters in
range. -/
def Wf (s : Fifo) : Prop :=
  0 < s.fifo_size ∧ s.fifo_size < U32 ∧ s.buffer_size ≤ s.fifo_size ∧
  s.rd_ptr < s.fifo_size ∧ s.wr_ptr = (s.rd_ptr + s.buffer_size) % s.fifo_size ∧
  s.read_count < U32 ∧ s.average_acc < U32

instance (s : Fifo) : Decidable (Wf s) := by
  unfold Wf; infer_instance

/-- States of top::monitor_thread: the first while loop (waiting for
prod_done_sig), the second while loop (polling is_empty), and the point
after both loops where the completion line is printed. -/
inductive MState
  | wait_producer
  | wait_drain
  | done_state
  deriving DecidableEq

/-- One scheduling instant of monitor_thread, given the values it would
observe: flagNow is prod_done_sig.read() and emptyNow is
fifo_inst.is_empty() at that instant.  In the first loop the thread tests
the flag; when the flag is observed true, control falls through to the
second loop at the same instant, so emptiness is tested immediately. In
the second loop only emptiness is tested.  Reaching done_state is the
point where the completion report is printed; there are no further
suspensions, so the report carries the time of that same instant. -/
def monitor_step : MState → Bool → Bool → MState
  | MState.wait_producer, flagNow, emptyNow =>
    if flagNow then (if emptyNow then MState.done_state else MState.wait_drain)
    else MState.wait_producer
  | MState.wait_drain, _, emptyNow =>
    if emptyNow then MState.done_state else MState.wait_drain
  | MState.done_state, _, _ => MState.done_state

/-- Index of the observation instant at which monitor_thread first reaches
done_state, along a finite list of observed (flag, empty) pairs; none if
it is still waiting at the end of the list. -/
def monitor_done_at : MState → List (Bool × Bool) → Option Nat
  | _, [] => none
  | st, ob :: rest =>
    if monitor_step st ob.1 ob.2 = MState.done_state then some 0
    else (monitor_done_at (monitor_step st ob.1 ob.2) rest).map (fun k => k + 1)

lemma U32_pos : 0 < U32 := by norm_num [U32]

lemma wrap_succ (w n : Nat) (hw : w < n) (hn : n < U32) :
    (if (w + 1) % U32 = n then 0 else (w + 1) % U32) = (w + 1) % n := by
  have h1 : (w + 1) % U32 = w + 1 := Nat.mod_eq_of_lt (by omega)
  rw [h1]
  by_cases h : w + 1 = n
  · rw [if_pos h, h, Nat.mod_self]
  · rw [if_neg h, Nat.mod_eq_of_lt (by omega)]

lemma fifo_init_wf (cap : Nat) (h1 : 0 < cap) (h2 : cap < U32) : Wf (fifo_init cap) := by
  refine ⟨h1, h2, ?_, h1, ?_, U32_pos, U32_pos⟩
  · exact Nat.zero_le _
  · show (0 : Nat) = (0 + 0) % cap
    simp

lemma fifo_reset_wf (s : Fifo) (hWf : Wf s) : Wf (fifo_reset s) := by
  obtain ⟨h1, h2, h3, h4, h5, h6, h7⟩ := hWf
  refine ⟨h1, h2, Nat.zero_le _, h1, ?_, h6, h7⟩
  show (0 : Nat) = (0 + 0) % s.fifo_size
  simp

lemma compute_status_spec (s : Fifo) :
    (compute_status s).fifo_size = s.fifo_size ∧
    (compute_status s).data = s.data ∧
    (compute_status s).wr_ptr = s.wr_ptr ∧
    (compute_status s).rd_ptr = s.rd_ptr ∧
    (compute_status s).buffer_size = s.buffer_size ∧
    (compute_status s).read_count = (s.read_count + 1) % U32 ∧
    (compute_status s).max_buffered = max s.max_buffered s.buffer_size ∧
    (compute_status s).average_acc = (s.average_acc + s.buffer_size) % U32 ∧
    (compute_status s).last_time = s.last_time := by
  simp only [compute_status]
  split
  · rename_i h
    exact ⟨rfl, rfl, rfl, rfl, rfl, rfl, (Nat.max_eq_right (le_of_lt h)).symm, rfl, rfl⟩
  · rename_i h
    exact ⟨rfl, rfl, rfl, rfl, rfl, rfl, (Nat.max_eq_left (Nat.le_of_not_lt h)).symm, rfl, rfl⟩

lemma write_commit_spec (s : Fifo) (v : Nat) (hWf : Wf s) (hroom : s.buffer_size < s.fifo_size) :
    Wf (write_commit s v) ∧
    (write_commit s v).buffer_size = s.buffer_size + 1 ∧
    (write_commit s v).rd_ptr = s.rd_ptr ∧
    (write_commit s v).fifo_size = s.fifo_size ∧
    (write_commit s v).read_count = s.read_count ∧
    (write_commit s v).average_acc = s.average_acc ∧
    (write_commit s v).max_buffered = s.max_buffered ∧
    (write_commit s v).last_time = s.last_time ∧
    fifoList (write_commit s v) = fifoList s ++ [v] := by
  obtain ⟨h1, h2, h3, h4, h5, h6, h7⟩ := hWf
  have hbuf : (s.buffer_size + 1) % U32 = s.buffer_size + 1 := Nat.mod_eq_of_lt (by omega)
  have hwrlt : s.wr_ptr < s.fifo_size := by
    rw [h5]; exact Nat.mod_lt _ h1
  have hwr : (write_commit s v).wr_ptr = (s.rd_ptr + (s.buffer_size + 1)) % s.fifo_size := by
    show (if (s.wr_ptr + 1) % U32 = s.fifo_size then 0 else (s.wr_ptr + 1) % U32) = _
    rw [wrap_succ _ _ hwrlt h2, h5, Nat.mod_add_mod, Nat.add_assoc]
  have hne : ∀ k, k < s.buffer_size → (s.rd_ptr + k) % s.fifo_size ≠ s.wr_ptr := by
    intro k hk heq
    rw [h5] at heq
    have hkb : k % s.fifo_size = s.buffer_size % s.fifo_size :=
      Nat.ModEq.add_left_cancel' s.rd_ptr heq
    rw [Nat.mod_eq_of_lt (by omega), Nat.mod_eq_of_lt (by omega)] at hkb
    omega
  have hlast : (write_commit s v).data ((s.rd_ptr + s.buffer_size) % s.fifo_size) = v := by
    show (if (s.rd_ptr + s.buffer_size) % s.fifo_size = s.wr_ptr then v
          else s.data ((s.rd_ptr + s.buffer_size) % s.fifo_size)) = v
    rw [if_pos h5.symm]
  have hrest : (List.range s.buffer_size).map
      (fun k => (write_commit s v).data ((s.rd_ptr + k) % s.fifo_size)) = fifoList s := by
    apply List.map_congr_left
    intro k hk
    have hk2 : k < s.buffer_size := List.mem_range.mp hk
    show (if (s.rd_ptr + k) % s.fifo_size = s.wr_ptr then v
          else s.data ((s.rd_ptr + k) % s.fifo_size)) = _
    rw [if_neg (hne k hk2)]
  have hfl : fifoList (write_commit s v) = fifoList s ++ [v] := by
    show (List.range ((s.buffer_size + 1) % U32)).map
        (fun k => (write_commit s v).data ((s.rd_ptr + k) % s.fifo_size)) = _
    rw [hbuf, List.range_succ, List.map_append, hrest]
    simp only [List.map_cons, List.map_nil]
    rw [hlast]
  refine ⟨⟨h1, h2, ?_, h4, ?_, h6, h7⟩, hbuf, rfl, rfl, rfl, rfl, rfl, rfl, hfl⟩
  · show (s.buffer_size + 1) % U32 ≤ s.fifo_size
    omega
  · show (write_commit s v).wr_ptr = (s.rd_ptr + (s.buffer_size + 1) % U32) % s.fifo_size
    rw [hbuf, hwr]

set_option maxRecDepth 4000 in
lemma read_body_spec (s : Fifo) (hWf : Wf s) (hpos : 0 < s.buffer_size) :
    Wf (read_body s).1 ∧
    (read_body s).1.buffer_size = s.buffer_size - 1 ∧
    (read_body s).1.fifo_size = s.fifo_size ∧
    (read_body s).1.read_count = (s.read_count + 1) % U32 ∧
    (read_body s).1.average_acc = (s.average_acc + s.buffer_size) % U32 ∧
    (read_body s).1.max_buffered = max s.max_buffered s.buffer_size ∧
    (read_body s).1.last_time = s.last_time ∧
    (read_body s).1.data = s.data ∧
    (read_body s).2 = s.data s.rd_ptr ∧
    fifoList s = (read_body s).2 :: fifoList (read_body s).1 := by
  obtain ⟨h1, h2, h3, h4, h5, h6, h7⟩ := hWf
  obtain ⟨c1, c2, c3, c4, c5, c6, c7, c8, c9⟩ := compute_status_spec s
  have hb1 : (read_body s).1.buffer_size = s.buffer_size - 1 := by
    show ((compute_status s).buffer_size + (U32 - 1)) % U32 = s.buffer_size - 1
    rw [c5]
    have hb : s.buffer_size + (U32 - 1) = U32 + (s.buffer_size - 1) := by omega
    rw [hb, Nat.add_mod_left, Nat.mod_eq_of_lt (by omega)]
  have hrd1 : (read_body s).1.rd_ptr = (s.rd_ptr + 1) % s.fifo_size := by
    show (if ((compute_status s).rd_ptr + 1) % U32 = (compute_status s).fifo_size then 0
          else ((compute_status s).rd_ptr + 1) % U32) = _
    rw [c4, c1]
    exact wrap_succ _ _ h4 h2
  have hdata : (read_body s).1.data = s.data := c2
  have hfs : (read_body s).1.fifo_size = s.fifo_size := c1
  have hval : (read_body s).2 = s.data s.rd_ptr := by
    show (compute_status s).data (compute_status s).rd_ptr = s.data s.rd_ptr
    rw [c2, c4]
  have hwr1 : (read_body s).1.wr_ptr = s.wr_ptr := c3
  have htail : fifoList (read_body s).1 =
      (List.range (s.buffer_size - 1)).map (fun k => s.data ((s.rd_ptr + 1 + k) % s.fifo_size)) := by
    unfold fifoList
    simp only [hb1, hrd1, hdata, hfs]
    apply List.map_congr_left
    intro k hk
    rw [Nat.mod_add_mod]
  have hrc : (read_body s).1.read_count = (s.read_count + 1) % U32 := c6
  have hacc : (read_body s).1.average_acc = (s.average_acc + s.buffer_size) % U32 := c8
  have hmax : (read_body s).1.max_buffered = max s.max_buffered s.buffer_size := c7
  have hlt : (read_body s).1.last_time = s.last_time := c9
  have hfl : fifoList s = (read_body s).2 :: fifoList (read_body s).1 := by
    rw [htail, hval]
    have hrange : List.range s.buffer_size = 0 :: (List.range (s.buffer_size - 1)).map Nat.succ := by
      conv_lhs => rw [show s.buffer_size = (s.buffer_size - 1) + 1 by omega]
      exact List.range_succ_eq_map _
    have headEq : s.data ((s.rd_ptr + 0) % s.fifo_size) = s.data s.rd_ptr := by
      rw [Nat.add_zero, Nat.mod_eq_of_lt h4]
    have tailEq : (List.range (s.buffer_size - 1)).map
        ((fun k => s.data ((s.rd_ptr + k) % s.fifo_size)) ∘ Nat.succ) =
        (List.range (s.buffer_size - 1)).map
        (fun k => s.data ((s.rd_ptr + 1 + k) % s.fifo_size)) := by
      apply List.map_congr_left
      intro k hk
      show s.data ((s.rd_ptr + Nat.succ k) % s.fifo_size) = _
      rw [show s.rd_ptr + Nat.succ k = s.rd_ptr + 1 + k by omega]
    show (List.range s.buffer_size).map (fun k => s.data ((s.rd_ptr + k) % s.fifo_size)) = _
    rw [hrange, List.map_cons, List.map_map]
    show s.data ((s.rd_ptr + 0) % s.fifo_size) ::
        (List.range (s.buffer_size - 1)).map
          ((fun k => s.data ((s.rd_ptr + k) % s.fifo_size)) ∘ Nat.succ) = _
    rw [headEq, tailEq]
  refine ⟨⟨?_, ?_, ?_, ?_, ?_, ?_, ?_⟩, hb1, hfs, hrc, hacc, hmax, hlt, hdata, hval, hfl⟩
  · rw [hfs]; exact h1
  · rw [hfs]; exact h2
  · rw [hb1, hfs]; omega
  · rw [hrd1, hfs]; exact Nat.mod_lt _ h1
  · rw [hwr1, hrd1, hb1, hfs, Nat.mod_add_mod,
      show s.rd_ptr + 1 + (s.buffer_size - 1) = s.rd_ptr + s.buffer_size by omega]
    exact h5
  · rw [hrc]; exact Nat.mod_lt _ U32_pos
  · rw [hacc]; exact Nat.mod_lt _ U32_pos

/-- C10: fifo::reset modifies only buffer_size, rd_ptr and wr_ptr, setting
each to 0; capacity, the statistics counters (read_count, average_acc,
max_buffered, last_time) and the stored array are all left unchanged, so
accumulated statistics survive a reset. -/
theorem c10_reset_frame (s : Fifo) :
    (fifo_reset s).buffer_size = 0 ∧ (fifo_reset s).rd_ptr = 0 ∧ (fifo_reset s).wr_ptr = 0 ∧
    (fifo_reset s).fifo_size = s.fifo_size ∧ (fifo_reset s).data = s.data ∧
    (fifo_reset s).read_count = s.read_count ∧ (fifo_reset s).max_buffered = s.max_buffered ∧
    (fifo_reset s).average_acc = s.average_acc ∧ (fifo_reset s).last_time = s.last_time :=
  ⟨rfl, rfl, rfl, rfl, rfl, rfl, rfl, rfl, rfl⟩

/-- C4: the destructor statistics are NOT guarded against read_count = 0.
Evaluating the teardown report on a fifo that never served a take (here: a
freshly constructed fifo of capacity 10) reaches the divisions by
read_count = 0, whose result is undefined in the source (modeled none);
no guarded defined value is reported, contradicting the claim. -/
theorem c4_finalize_divzero : fifo_finalize (fifo_init 10) = none := rfl

/-- C5: at the failing input rand() = RAND_MAX the burst-length expression
1 + uint32_t(19.0 * rand() / RAND_MAX) evaluates to 20, outside the range
[1, 19] stated by the claim and by the comment in the source. -/
theorem c5_burst_out_of_range : burst_len RAND_MAX = 20 ∧ ¬ burst_len RAND_MAX ≤ 19 := by
  decide

/-- C2 counterexample: a put that suspended on the full capacity-1 queue
(reachable by a single prior put) and is then resumed while the queue is
still full proceeds to write WITHOUT re-checking fullness: the occupancy
becomes 2, exceeding the capacity 1.  The source checks the guard once,
with an if, before the wait only. -/
theorem c2_no_recheck_cex :
    (write_commit (fifo_init 1) 7).buffer_size = (write_commit (fifo_init 1) 7).fifo_size ∧
    (fifo_write_resume (write_commit (fifo_init 1) 7) 9).buffer_size = 2 ∧
    ¬ (fifo_write_resume (write_commit (fifo_init 1) 7) 9).buffer_size ≤
        (fifo_write_resume (write_commit (fifo_init 1) 7) 9).fifo_size := by
  decide

/-- C2 amended: the fullness / emptiness guard is tested exactly once, on
entry, before suspending; a resumed put or take proceeds unconditionally
into the buffer update with no re-check.  The unchecked resumption is
nevertheless safe whenever the queue is respectively non-full / non-empty
at the wakeup instant, which the single-producer single-consumer wakeup
discipline of the program provides. -/
theorem c2_resume_no_recheck (s : Fifo) (pd t : Nat) (hWf : Wf s) :
    fifo_write_resume s pd = write_commit s pd ∧
    fifo_read_resume s t = read_body s ∧
    (s.buffer_size < s.fifo_size →
      (fifo_write_resume s pd).buffer_size = s.buffer_size + 1 ∧
      Wf (fifo_write_resume s pd)) ∧
    (0 < s.buffer_size →
      (fifo_read_resume s t).1.buffer_size = s.buffer_size - 1 ∧
      Wf (fifo_read_resume s t).1) := by
  refine ⟨rfl, rfl, fun h => ?_, fun h => ?_⟩
  · obtain ⟨w1, w2, _⟩ := write_commit_spec s pd hWf h
    exact ⟨w2, w1⟩
  · obtain ⟨r1, r2, _⟩ := read_body_spec s hWf h
    exact ⟨r2, r1⟩

/-- Witness for C2 amended at the one-element capacity-2 state. -/
theorem c2_resume_no_recheck_witness :
    ((fifo_write_resume (write_commit (fifo_init 2) 5) 9).buffer_size =
        (write_commit (fifo_init 2) 5).buffer_size + 1 ∧
      Wf (fifo_write_resume (write_commit (fifo_init 2) 5) 9)) ∧
    ((fifo_read_resume (write_commit (fifo_init 2) 5) 0).1.buffer_size =
        (write_commit (fifo_init 2) 5).buffer_size - 1 ∧
      Wf (fifo_read_resume (write_commit (fifo_init 2) 5) 0).1) :=
  ⟨(c2_resume_no_recheck (write_commit (fifo_init 2) 5) 9 0 (by decide)).2.2.1 (by decide),
   (c2_resume_no_recheck (write_commit (fifo_init 2) 5) 9 0 (by decide)).2.2.2 (by decide)⟩

/-- C6 counterexample: a take entering the empty capacity-1 queue at
simulated time 3 suspends with last_time already set to 3.  A put then
makes the queue non-empty and the take resumes and removes the element at
simulated time 7 — but last_time stays 3, the entry time: the recorded
value is NOT the time at which the element is removed and does not include
the time spent suspended. -/
theorem c6_lasttime_cex :
    fifo_read (fifo_init 1) 3 = ReadOutcome.suspended { fifo_init 1 with last_time := 3 } ∧
    (fifo_read_resume (write_commit { fifo_init 1 with last_time := 3 } 42) 7).1.last_time = 3 ∧
    (fifo_read_resume (write_commit { fifo_init 1 with last_time := 3 } 42) 7).2 = 42 ∧
    (3 : Nat) ≠ 7 :=
  ⟨rfl, by decide, by decide, by decide⟩

/-- C6 amended: read() records the entry-time clock value into last_time
first thing, BEFORE the emptiness check and any suspension.  A take that
does not suspend therefore carries last_time = its entry instant, which is
also its removal instant; a take that suspends keeps the entry time — the
resumption code never reads the clock again. -/
theorem c6_lasttime_entry (s : Fifo) (t : Nat) :
    (s.buffer_size = 0 → fifo_read s t = ReadOutcome.suspended { s with last_time := t }) ∧
    (s.buffer_size ≠ 0 →
      fifo_read s t = ReadOutcome.completed (read_body { s with last_time := t }) ∧
      (read_body { s with last_time := t }).1.last_time = t) ∧
    ∀ t2, (fifo_read_resume s t2).1.last_time = s.last_time := by
  refine ⟨fun h => ?_, fun h => ⟨?_, ?_⟩, fun t2 => ?_⟩
  · show (if s.buffer_size = 0 then _ else _) = _
    rw [if_pos h]
  · show (if s.buffer_size = 0 then _ else _) = _
    rw [if_neg h]
  · exact (compute_status_spec _).2.2.2.2.2.2.2.2
  · exact (compute_status_spec s).2.2.2.2.2.2.2.2

/-- Witness for C6 amended at a one-element capacity-1 state, take at
time 5. -/
theorem c6_lasttime_entry_witness :
    (fifo_read (write_commit (fifo_init 1) 8) 5 =
        ReadOutcome.completed (read_body { write_commit (fifo_init 1) 8 with last_time := 5 }) ∧
      (read_body { write_commit (fifo_init 1) 8 with last_time := 5 }).1.last_time = 5) ∧
    (fifo_read_resume (write_commit (fifo_init 1) 8) 0).1.last_time =
      (write_commit (fifo_init 1) 8).last_time :=
  ⟨(c6_lasttime_entry (write_commit (fifo_init 1) 8) 5).2.1 (by decide),
   (c6_lasttime_entry (write_commit (fifo_init 1) 8) 5).2.2 0⟩

lemma monitor_done_aux : ∀ (obs : List (Bool × Bool)) (st : MState) (t : Nat),
    st ≠ MState.done_state → monitor_done_at st obs = some t →
    t < obs.length ∧ (obs.getD t (false, false)).2 = true ∧
    (st = MState.wait_producer → ∃ i, i ≤ t ∧ (obs.getD i (false, false)).1 = true) := by
  intro obs
  induction obs with
  | nil =>
    intro st t hst h
    simp [monitor_done_at] at h
  | cons ob rest ih =>
    intro st t hst h
    rcases ob with ⟨f, e⟩
    cases st with
    | done_state => exact absurd rfl hst
    | wait_producer =>
      cases f <;> cases e <;>
        simp only [monitor_done_at, monitor_step, Bool.false_eq_true, if_true, if_false,
          reduceCtorEq, reduceIte] at h
      · obtain ⟨k, hk, hkt⟩ := Option.map_eq_some'.mp h
        have hkt2 : k + 1 = t := hkt
        obtain ⟨h1, h2, h3⟩ := ih MState.wait_producer k (by decide) hk
        obtain ⟨i, hi, hflag⟩ := h3 rfl
        refine ⟨by simp; omega, ?_, fun _ => ⟨i + 1, by omega, ?_⟩⟩
        · rw [← hkt2, List.getD_cons_succ]; exact h2
        · rw [List.getD_cons_succ]; exact hflag
      · obtain ⟨k, hk, hkt⟩ := Option.map_eq_some'.mp h
        have hkt2 : k + 1 = t := hkt
        obtain ⟨h1, h2, h3⟩ := ih MState.wait_producer k (by decide) hk
        obtain ⟨i, hi, hflag⟩ := h3 rfl
        refine ⟨by simp; omega, ?_, fun _ => ⟨i + 1, by omega, ?_⟩⟩
        · rw [← hkt2, List.getD_cons_succ]; exact h2
        · rw [List.getD_cons_succ]; exact hflag
      · obtain ⟨k, hk, hkt⟩ := Option.map_eq_some'.mp h
        have hkt2 : k + 1 = t := hkt
        obtain ⟨h1, h2, _⟩ := ih MState.wait_drain k (by decide) hk
        refine ⟨by simp; omega, ?_, fun _ => ⟨0, by omega, by simp⟩⟩
        rw [← hkt2, List.getD_cons_succ]; exact h2
      · have ht : t = 0 := by simp only [Option.some.injEq] at h; omega
        subst ht
        exact ⟨by simp, by simp, fun _ => ⟨0, Nat.le_refl 0, by simp⟩⟩
    | wait_drain =>
      cases f <;> cases e <;>
        simp only [monitor_done_at, monitor_step, Bool.false_eq_true, if_true, if_false,
          reduceCtorEq, reduceIte] at h
      · obtain ⟨k, hk, hkt⟩ := Option.map_eq_some'.mp h
        have hkt2 : k + 1 = t := hkt
        obtain ⟨h1, h2, _⟩ := ih MState.wait_drain k (by decide) hk
        refine ⟨by simp; omega, ?_, fun hcon => absurd hcon (by decide)⟩
        rw [← hkt2, List.getD_cons_succ]; exact h2
      · have ht : t = 0 := by simp only [Option.some.injEq] at h; omega
        subst ht
        exact ⟨by simp, by simp, fun hcon => absurd hcon (by decide)⟩
      · obtain ⟨k, hk, hkt⟩ := Option.map_eq_some'.mp h
        have hkt2 : k + 1 = t := hkt
        obtain ⟨h1, h2, _⟩ := ih MState.wait_drain k (by decide) hk
        refine ⟨by simp; omega, ?_, fun hcon => absurd hcon (by decide)⟩
        rw [← hkt2, List.getD_cons_succ]; exact h2
      · have ht : t = 0 := by simp only [Option.some.injEq] at h; omega
        subst ht
        exact ⟨by simp, by simp, fun hcon => absurd hcon (by decide)⟩

/-- C9: if the monitor, started in its first waiting loop, reaches
done_state (the point where the single completion report is printed) at
observation instant t of an observation trace, then the queue was observed
empty at t, and the completion flag was observed true at some instant
i at most t.  It never reports while the flag has not yet been observed
true or while the queue is observed non-empty. -/
theorem c9_drain (obs : List (Bool × Bool)) (t : Nat)
    (h : monitor_done_at MState.wait_producer obs = some t) :
    t < obs.length ∧ (obs.getD t (false, false)).2 = true ∧
    ∃ i, i ≤ t ∧ (obs.getD i (false, false)).1 = true := by
  obtain ⟨h1, h2, h3⟩ := monitor_done_aux obs MState.wait_producer t (by decide) h
  exact ⟨h1, h2, h3 rfl⟩

/-- Witness for C9: the monitor observes (flag, empty) = (false, false),
then (true, false), then (true, true), and reports at instant 2. -/
theorem c9_drain_witness :
    (2 : Nat) < ([(false, false), (true, false), (true, true)] : List (Bool × Bool)).length ∧
    (([(false, false), (true, false), (true, true)] : List (Bool × Bool)).getD 2
        (false, false)).2 = true ∧
    ∃ i, i ≤ 2 ∧
      (([(false, false), (true, false), (true, true)] : List (Bool × Bool)).getD i
          (false, false)).1 = true :=
  c9_drain _ 2 (by decide)

lemma numTakes_put (v : Nat) (rest : List Op) : numTakes (Op.put v :: rest) = numTakes rest := rfl

lemma numTakes_take (t : Nat) (rest : List Op) :
    numTakes (Op.take t :: rest) = numTakes rest + 1 := rfl

lemma numPuts_put (v : Nat) (rest : List Op) : numPuts (Op.put v :: rest) = numPuts rest + 1 := rfl

lemma numPuts_take (t : Nat) (rest : List Op) : numPuts (Op.take t :: rest) = numPuts rest := rfl

lemma putsOf_put (v : Nat) (rest : List Op) : putsOf (Op.put v :: rest) = v :: putsOf rest := rfl

lemma putsOf_take (t : Nat) (rest : List Op) : putsOf (Op.take t :: rest) = putsOf rest := rfl

lemma run_put_cons (s : Fifo) (v : Nat) (rest : List Op) (h : s.buffer_size ≠ s.fifo_size) :
    run s (Op.put v :: rest) = run (write_commit s v) rest := by
  simp only [run, fifo_write]
  rw [if_neg h]

lemma run_take_cons (s : Fifo) (t : Nat) (rest : List Op) (h : s.buffer_size ≠ 0) :
    run s (Op.take t :: rest) =
      (run (read_body { s with last_time := t }).1 rest).map
        (fun q => (q.1, (read_body { s with last_time := t }).2 :: q.2.1,
          s.buffer_size :: q.2.2)) := by
  simp only [run, fifo_read]
  rw [if_neg h]

lemma run_wf : ∀ (ops : List Op) (s s2 : Fifo) (outs occs : List Nat),
    Wf s → run s ops = some (s2, outs, occs) → Wf s2 ∧ s2.fifo_size = s.fifo_size := by
  intro ops
  induction ops with
  | nil =>
    intro s s2 outs occs hWf h
    simp only [run, Option.some.injEq, Prod.mk.injEq] at h
    obtain ⟨rfl, rfl, rfl⟩ := h
    exact ⟨hWf, rfl⟩
  | cons op rest ih =>
    intro s s2 outs occs hWf h
    cases op with
    | put v =>
      by_cases hb : s.buffer_size = s.fifo_size
      · simp [run, fifo_write, hb] at h
      · rw [run_put_cons s v rest hb] at h
        have hroom : s.buffer_size < s.fifo_size := lt_of_le_of_ne hWf.2.2.1 hb
        obtain ⟨w1, w2, w3, w4, w5, w6, w7, w8, w9⟩ := write_commit_spec s v hWf hroom
        obtain ⟨ih1, ih2⟩ := ih _ s2 outs occs w1 h
        exact ⟨ih1, by rw [ih2, w4]⟩
    | take t =>
      by_cases hb : s.buffer_size = 0
      · simp [run, fifo_read, hb] at h
      · rw [run_take_cons s t rest hb] at h
        obtain ⟨q, hq, hqt⟩ := Option.map_eq_some'.mp h
        cases hqt
        have hWf1 : Wf { s with last_time := t } := hWf
        have hpos : 0 < ({ s with last_time := t } : Fifo).buffer_size := Nat.pos_of_ne_zero hb
        obtain ⟨r1, r2, r3, _⟩ := read_body_spec { s with last_time := t } hWf1 hpos
        obtain ⟨ih1, ih2⟩ := ih _ q.1 q.2.1 q.2.2 r1 hq
        exact ⟨ih1, by rw [ih2, r3]⟩
    | reset =>
      have hr : run s (Op.reset :: rest) = run (fifo_reset s) rest := rfl
      rw [hr] at h
      obtain ⟨ih1, ih2⟩ := ih _ s2 outs occs (fifo_reset_wf s hWf) h
      exact ⟨ih1, ih2⟩

lemma run_book : ∀ (ops : List Op) (s s2 : Fifo) (outs occs : List Nat),
    Wf s → Op.reset ∉ ops → run s ops = some (s2, outs, occs) →
    s2.read_count = (s.read_count + numTakes ops) % U32 ∧
    s2.buffer_size + numTakes ops = s.buffer_size + numPuts ops ∧
    s2.average_acc = (s.average_acc + occs.sum) % U32 ∧
    s2.max_buffered = occs.foldl max s.max_buffered ∧
    outs ++ fifoList s2 = fifoList s ++ putsOf ops ∧
    occs.length = numTakes ops := by
  intro ops
  induction ops with
  | nil =>
    intro s s2 outs occs hWf hnr h
    simp only [run, Option.some.injEq, Prod.mk.injEq] at h
    obtain ⟨rfl, rfl, rfl⟩ := h
    refine ⟨?_, rfl, ?_, rfl, by simp [putsOf], rfl⟩
    · show s.read_count = (s.read_count + 0) % U32
      rw [Nat.add_zero, Nat.mod_eq_of_lt hWf.2.2.2.2.2.1]
    · show s.average_acc = (s.average_acc + 0) % U32
      rw [Nat.add_zero, Nat.mod_eq_of_lt hWf.2.2.2.2.2.2]
  | cons op rest ih =>
    intro s s2 outs occs hWf hnr h
    have hnr2 : Op.reset ∉ rest := fun hm => hnr (List.mem_cons_of_mem _ hm)
    cases op with
    | put v =>
      by_cases hb : s.buffer_size = s.fifo_size
      · simp [run, fifo_write, hb] at h
      · rw [run_put_cons s v rest hb] at h
        have hroom : s.buffer_size < s.fifo_size := lt_of_le_of_ne hWf.2.2.1 hb
        obtain ⟨w1, w2, w3, w4, w5, w6, w7, w8, w9⟩ := write_commit_spec s v hWf hroom
        obtain ⟨a1, a2, a3, a4, a5, a6⟩ := ih _ s2 outs occs w1 hnr2 h
        refine ⟨?_, ?_, ?_, ?_, ?_, ?_⟩
        · rw [a1, w5, numTakes_put]
        · rw [numTakes_put, numPuts_put]
          have := a2
          rw [w2] at this
          omega
        · rw [a3, w6]
        · rw [a4, w7]
        · rw [a5, w9, putsOf_put, List.append_assoc, List.singleton_append]
        · rw [a6, numTakes_put]
    | take t =>
      by_cases hb : s.buffer_size = 0
      · simp [run, fifo_read, hb] at h
      · rw [run_take_cons s t rest hb] at h
        obtain ⟨q, hq, hqt⟩ := Option.map_eq_some'.mp h
        cases hqt
        have hWf1 : Wf { s with last_time := t } := hWf
        have hpos : 0 < ({ s with last_time := t } : Fifo).buffer_size := Nat.pos_of_ne_zero hb
        obtain ⟨r1, r2, r3, r4, r5, r6, r7, r8, r9, r10⟩ :=
          read_body_spec { s with last_time := t } hWf1 hpos
        obtain ⟨a1, a2, a3, a4, a5, a6⟩ := ih _ q.1 q.2.1 q.2.2 r1 hnr2 hq
        refine ⟨?_, ?_, ?_, ?_, ?_, ?_⟩
        · rw [a1, r4, Nat.mod_add_mod, numTakes_take,
            show s.read_count + 1 + numTakes rest = s.read_count + (numTakes rest + 1) by omega]
        · rw [numTakes_take, numPuts_take]
          have hb2 := a2
          rw [r2] at hb2
          have hb3 : q.1.buffer_size + numTakes rest = s.buffer_size - 1 + numPuts rest := hb2
          have hpos2 : 0 < s.buffer_size := hpos
          omega
        · rw [List.sum_cons, a3, r5, Nat.mod_add_mod,
            show s.average_acc + s.buffer_size + q.2.2.sum
              = s.average_acc + (s.buffer_size + q.2.2.sum) by omega]
        · rw [List.foldl_cons, a4, r6]
        · rw [putsOf_take]
          show (read_body { s with last_time := t }).2 :: (q.2.1 ++ fifoList q.1) = _
          rw [a5]
          have hfs : fifoList s = (read_body { s with last_time := t }).2 ::
              fifoList (read_body { s with last_time := t }).1 := r10
          rw [hfs, List.cons_append]
        · rw [List.length_cons, a6, numTakes_take]
    | reset => exact absurd (List.mem_cons_self _ _) hnr

/-- C8: for any trace of completed put / take / reset operations on a
queue created with capacity at least 1 (and, as the uint32_t constructor
argument forces, below 2^32), the structural invariant holds in the final
state: occupancy at most capacity and both ring pointers inside
[0, capacity).  Every prefix of a trace is itself a trace, so this is the
invariant after every operation. -/
theorem c8_invariant (cap : Nat) (ops : List Op) (b r w n : Nat)
    (h1 : 1 ≤ cap) (h2 : cap < U32)
    (hrun : (run (fifo_init cap) ops).map
        (fun p => (p.1.buffer_size, p.1.rd_ptr, p.1.wr_ptr, p.1.fifo_size)) =
      some (b, r, w, n)) :
    b ≤ n ∧ r < n ∧ w < n ∧ n = cap := by
  obtain ⟨⟨s2, o2, c2⟩, hp, hpt⟩ := Option.map_eq_some'.mp hrun
  simp only [Prod.mk.injEq] at hpt
  obtain ⟨hb, hr, hw, hn⟩ := hpt
  obtain ⟨⟨g1, g2, g3, g4, g5, g6, g7⟩, hfs⟩ :=
    run_wf ops (fifo_init cap) s2 o2 c2 (fifo_init_wf cap h1 h2) hp
  have hwlt : s2.wr_ptr < s2.fifo_size := by
    rw [g5]; exact Nat.mod_lt _ g1
  exact ⟨hb ▸ hn ▸ g3, hr ▸ hn ▸ g4, hw ▸ hn ▸ hwlt, hn ▸ hfs⟩

/-- Witness for C8: capacity 2 with a trace containing puts, a take and a
reset; final state has occupancy 1 and pointers 1 and 0, capacity 2. -/
theorem c8_invariant_witness :
    ((run (fifo_init 2) [Op.put 1, Op.take 0, Op.put 2, Op.reset, Op.put 9]).map
        (fun p => (p.1.buffer_size, p.1.rd_ptr, p.1.wr_ptr, p.1.fifo_size)) =
      some (1, 0, 1, 2)) ∧
    ((1 : Nat) ≤ 2 ∧ (0 : Nat) < 2 ∧ (1 : Nat) < 2 ∧ (2 : Nat) = 2) :=
  ⟨by decide, c8_invariant 2 [Op.put 1, Op.take 0, Op.put 2, Op.reset, Op.put 9] 1 0 1 2
    (by decide) (by decide) (by decide)⟩

/-- C7: strict FIFO delivery.  For any reset-free trace of completed
operations from a fresh queue that ends with the queue drained, the values
returned by the takes, in order, are exactly the values passed to the
puts, in order. -/
theorem c7_fifo_order (cap : Nat) (ops : List Op) (outs : List Nat)
    (h1 : 1 ≤ cap) (h2 : cap < U32) (hnr : Op.reset ∉ ops)
    (hrun : (run (fifo_init cap) ops).map (fun p => (p.2.1, p.1.buffer_size)) =
      some (outs, 0)) :
    outs = putsOf ops := by
  obtain ⟨⟨s2, o2, c2⟩, hp, hpt⟩ := Option.map_eq_some'.mp hrun
  simp only [Prod.mk.injEq] at hpt
  obtain ⟨rfl, hb0⟩ := hpt
  obtain ⟨-, -, -, -, hE, -⟩ :=
    run_book ops (fifo_init cap) s2 o2 c2 (fifo_init_wf cap h1 h2) hnr hp
  have hinit : fifoList (fifo_init cap) = [] := rfl
  have hfin : fifoList s2 = [] := by
    unfold fifoList
    rw [hb0]
    rfl
  rw [hinit, hfin, List.append_nil, List.nil_append] at hE
  exact hE

/-- Witness for C7: three puts interleaved with three takes on a
capacity-2 queue deliver 3, 4, 5 in order. -/
theorem c7_fifo_order_witness :
    ((run (fifo_init 2) [Op.put 3, Op.put 4, Op.take 0, Op.put 5, Op.take 1, Op.take 2]).map
        (fun p => (p.2.1, p.1.buffer_size)) = some ([3, 4, 5], 0)) ∧
    ([3, 4, 5] : List Nat) =
      putsOf [Op.put 3, Op.put 4, Op.take 0, Op.put 5, Op.take 1, Op.take 2] :=
  ⟨by decide, c7_fifo_order 2 [Op.put 3, Op.put 4, Op.take 0, Op.put 5, Op.take 1, Op.take 2]
    [3, 4, 5] (by decide) (by decide) (by decide) (by decide)⟩

/-- C3: statistics law.  For a reset-free trace from a fresh queue whose
takes observed the pre-removal occupancies occs (with the uint32_t
accumulators not overflowing), the final accumulators satisfy
average_acc = sum of the occupancies, max_buffered = their maximum,
read_count = their number, and the finalized average fill depth is
exactly (sum of occupancies) / (number of takes); the occupancy is
accumulated by compute_status before the element is removed. -/
theorem c3_statistics (cap : Nat) (ops : List Op) (occs : List Nat)
    (h1 : 1 ≤ cap) (h2 : cap < U32) (hnr : Op.reset ∉ ops) (hK : occs ≠ [])
    (hsum : occs.sum < U32) (hlen : occs.length < U32)
    (hocc : (run (fifo_init cap) ops).map (fun p => p.2.2) = some occs) :
    (run (fifo_init cap) ops).map
        (fun p => (p.1.average_acc, p.1.max_buffered, p.1.read_count,
          (fifo_finalize p.1).map Stats.avgFillDepth)) =
      some (occs.sum, occs.foldl max 0, occs.length,
        some ((occs.sum : ℚ) / (occs.length : ℚ))) := by
  obtain ⟨⟨s2, o2, c2⟩, hp, hpt⟩ := Option.map_eq_some'.mp hocc
  have hco : c2 = occs := hpt
  subst hco
  obtain ⟨hA, -, hC, hD, -, hF⟩ :=
    run_book ops (fifo_init cap) s2 o2 c2 (fifo_init_wf cap h1 h2) hnr hp
  have hrc : s2.read_count = c2.length := by
    rw [hA]
    show (0 + numTakes ops) % U32 = c2.length
    rw [Nat.zero_add, ← hF, Nat.mod_eq_of_lt hlen]
  have hacc : s2.average_acc = c2.sum := by
    rw [hC]
    show (0 + c2.sum) % U32 = c2.sum
    rw [Nat.zero_add, Nat.mod_eq_of_lt hsum]
  have hmax : s2.max_buffered = c2.foldl max 0 := hD
  have hK2 : c2.length ≠ 0 := fun hc => hK (List.length_eq_zero.mp hc)
  have hfin : fifo_finalize s2 = some ⟨s2.fifo_size, (c2.sum : ℚ) / (c2.length : ℚ),
      (s2.last_time : ℚ) / (c2.length : ℚ), c2.length, s2.last_time⟩ := by
    unfold fifo_finalize div_stat
    rw [hrc, hacc]
    simp only [if_neg hK2]
  rw [hp, Option.map_some']
  simp only [hacc, hmax, hrc, hfin, Option.map_some']

/-- Witness for C3: occupancies 1 and 2 observed by two takes; average
fill depth 3/2, maximum 2. -/
theorem c3_statistics_witness :
    ((run (fifo_init 3) [Op.put 5, Op.take 0, Op.put 6, Op.put 7, Op.take 4]).map
        (fun p => p.2.2) = some [1, 2]) ∧
    (run (fifo_init 3) [Op.put 5, Op.take 0, Op.put 6, Op.put 7, Op.take 4]).map
        (fun p => (p.1.average_acc, p.1.max_buffered, p.1.read_count,
          (fifo_finalize p.1).map Stats.avgFillDepth)) =
      some (([1, 2] : List Nat).sum, ([1, 2] : List Nat).foldl max 0,
        ([1, 2] : List Nat).length,
        some (((([1, 2] : List Nat).sum : Nat) : ℚ) / ((([1, 2] : List Nat).length : Nat) : ℚ))) :=
  ⟨by decide, c3_statistics 3 [Op.put 5, Op.take 0, Op.put 6, Op.put 7, Op.take 4] [1, 2]
    (by decide) (by decide) (by decide) (by decide) (by decide) (by decide) (by decide)⟩

lemma run_append : ∀ (l1 l2 : List Op) (s : Fifo),
    run s (l1 ++ l2) = (run s l1).bind (fun p => (run p.1 l2).map
      (fun q => (q.1, p.2.1 ++ q.2.1, p.2.2 ++ q.2.2))) := by
  intro l1
  induction l1 with
  | nil =>
    intro l2 s
    rw [List.nil_append]
    show run s l2 = (some (s, ([] : List Nat), ([] : List Nat))).bind _
    rw [Option.some_bind]
    cases hE : run s l2 with
    | none => rfl
    | some q => rfl
  | cons op rest ih =>
    intro l2 s
    cases op with
    | put v =>
      by_cases hb : s.buffer_size = s.fifo_size
      · simp [run, fifo_write, hb]
      · rw [List.cons_append, run_put_cons _ _ _ hb, run_put_cons _ _ _ hb, ih]
    | take t =>
      by_cases hb : s.buffer_size = 0
      · simp [run, fifo_read, hb]
      · rw [List.cons_append, run_take_cons _ _ _ hb, run_take_cons _ _ _ hb, ih]
        cases hR : run (read_body { s with last_time := t }).1 rest with
        | none => rfl
        | some p =>
          rw [Option.some_bind, Option.map_some', Option.some_bind]
          cases hQ : run p.1 l2 with
          | none => rfl
          | some q => simp
    | reset =>
      rw [List.cons_append]
      show run (fifo_reset s) (rest ++ l2) = _
      exact ih l2 (fifo_reset s)

lemma run_puts (v : Nat) : ∀ (k : Nat) (s : Fifo), Wf s → s.buffer_size + k ≤ s.fifo_size →
    ∃ s2, run s (List.replicate k (Op.put v)) = some (s2, [], []) ∧
      s2.buffer_size = s.buffer_size + k ∧ s2.read_count = s.read_count ∧
      s2.fifo_size = s.fifo_size ∧ Wf s2 := by
  intro k
  induction k with
  | zero =>
    intro s hWf hle
    exact ⟨s, rfl, by omega, rfl, rfl, hWf⟩
  | succ k ih =>
    intro s hWf hle
    have hb : s.buffer_size ≠ s.fifo_size := by omega
    obtain ⟨w1, w2, -, w4, w5, -⟩ := write_commit_spec s v hWf (by omega)
    obtain ⟨s2, hrun, hb2, hrc2, hfs2, hWf2⟩ := ih (write_commit s v) w1 (by rw [w2, w4]; omega)
    refine ⟨s2, ?_, by rw [hb2, w2]; omega, by rw [hrc2, w5], by rw [hfs2, w4], hWf2⟩
    rw [List.replicate_succ, run_put_cons s v _ hb]
    exact hrun

lemma run_takes (t : Nat) : ∀ (k : Nat) (s : Fifo), Wf s → k ≤ s.buffer_size →
    ∃ s2 outs occs, run s (List.replicate k (Op.take t)) = some (s2, outs, occs) ∧
      s2.buffer_size = s.buffer_size - k ∧
      s2.read_count = (s.read_count + k) % U32 ∧
      s2.fifo_size = s.fifo_size ∧ Wf s2 := by
  intro k
  induction k with
  | zero =>
    intro s hWf hle
    exact ⟨s, [], [], rfl, by omega,
      by rw [Nat.add_zero, Nat.mod_eq_of_lt hWf.2.2.2.2.2.1], rfl, hWf⟩
  | succ k ih =>
    intro s hWf hle
    have hb : s.buffer_size ≠ 0 := by omega
    have hWf1 : Wf ({ s with last_time := t } : Fifo) := hWf
    have hpos : 0 < ({ s with last_time := t } : Fifo).buffer_size := Nat.pos_of_ne_zero hb
    obtain ⟨r1, r2, r3, r4, -⟩ := read_body_spec { s with last_time := t } hWf1 hpos
    have r2x : (read_body { s with last_time := t }).1.buffer_size = s.buffer_size - 1 := r2
    have r3x : (read_body { s with last_time := t }).1.fifo_size = s.fifo_size := r3
    have r4x : (read_body { s with last_time := t }).1.read_count = (s.read_count + 1) % U32 := r4
    obtain ⟨s2, outs, occs, hrun, hb2, hrc2, hfs2, hWf2⟩ :=
      ih (read_body { s with last_time := t }).1 r1 (by rw [r2x]; omega)
    refine ⟨s2, (read_body { s with last_time := t }).2 :: outs, s.buffer_size :: occs,
      ?_, by rw [hb2, r2x]; omega, ?_, by rw [hfs2, r3x], hWf2⟩
    · rw [List.replicate_succ, run_take_cons s t _ hb, hrun]
      rfl
    · rw [hrc2, r4x, Nat.mod_add_mod,
        show s.read_count + 1 + k = s.read_count + (k + 1) by omega]

lemma burst_len_bounds (r : Nat) (h : r ≤ RAND_MAX) : 1 ≤ burst_len r ∧ burst_len r ≤ 20 := by
  unfold burst_len
  refine ⟨Nat.le_add_right 1 _, ?_⟩
  have h19 : 19 * r ≤ 19 * RAND_MAX := Nat.mul_le_mul_left 19 h
  have hd : 19 * r / RAND_MAX ≤ 19 * RAND_MAX / RAND_MAX := Nat.div_le_div_right h19
  have he : 19 * RAND_MAX / RAND_MAX = 19 := by norm_num [RAND_MAX]
  have hx : 19 * r / RAND_MAX ≤ 19 := he ▸ hd
  exact Nat.add_le_add_left hx 1

lemma producer_loop_bounds : ∀ (draws : List Nat) (tl : Int) (total : Nat),
    0 < tl → (∀ r ∈ draws, r ≤ RAND_MAX) → producer_loop tl draws = some total →
    tl ≤ (total : Int) ∧ (total : Int) ≤ tl + 19 := by
  intro draws
  induction draws with
  | nil =>
    intro tl total _ _ h
    simp [producer_loop] at h
  | cons r rest ih =>
    intro tl total htl hr h
    simp only [producer_loop] at h
    obtain ⟨hb1, hb20⟩ := burst_len_bounds r (hr r (List.mem_cons_self r rest))
    by_cases hc : tl - (burst_len r : Int) ≤ 0
    · rw [if_pos hc] at h
      simp only [Option.some.injEq] at h
      omega
    · rw [if_neg hc] at h
      obtain ⟨n, hn, hnt⟩ := Option.map_eq_some'.mp h
      have hnt2 : burst_len r + n = total := hnt
      have hrest : ∀ x ∈ rest, x ≤ RAND_MAX := fun x hx => hr x (List.mem_cons_of_mem _ hx)
      obtain ⟨ih1, ih2⟩ := ih (tl - (burst_len r : Int)) n (by omega) hrest hn
      omega

lemma numPuts_append (l1 l2 : List Op) : numPuts (l1 ++ l2) = numPuts l1 + numPuts l2 := by
  induction l1 with
  | nil => simp [numPuts]
  | cons op rest ih =>
    cases op with
    | put v => rw [List.cons_append, numPuts_put, numPuts_put, ih]; omega
    | take t => rw [List.cons_append, numPuts_take, numPuts_take, ih]
    | reset =>
      show numPuts (Op.reset :: (rest ++ l2)) = numPuts (Op.reset :: rest) + numPuts l2
      show numPuts (rest ++ l2) = numPuts rest + numPuts l2
      exact ih

lemma numPuts_replicate_put (n v : Nat) : numPuts (List.replicate n (Op.put v)) = n := by
  induction n with
  | zero => rfl
  | succ n ih => rw [List.replicate_succ, numPuts_put, ih]

lemma numPuts_replicate_take (n t : Nat) : numPuts (List.replicate n (Op.take t)) = 0 := by
  induction n with
  | zero => rfl
  | succ n ih => rw [List.replicate_succ, numPuts_take, ih]

lemma big_run_proj :
    (run (fifo_init 100000)
        (List.replicate 10013 (Op.put 1) ++ List.replicate 10013 (Op.take 0))).map
      (fun p => (p.1.read_count, p.1.buffer_size)) = some (10013, 0) := by
  have hWf0 : Wf (fifo_init 100000) := fifo_init_wf 100000 (by norm_num) (by norm_num [U32])
  obtain ⟨s1, hrun1, hb1, hrc1, hfs1, hWf1⟩ :=
    run_puts 1 10013 (fifo_init 100000) hWf0 (by decide)
  obtain ⟨s2, outs, occs, hrun2, hb2, hrc2, hfs2, hWf2⟩ :=
    run_takes 0 10013 s1 hWf1 (by rw [hb1]; decide)
  rw [run_append, hrun1, Option.some_bind, hrun2, Option.map_some', Option.map_some']
  rw [hrc2, hrc1, hb2, hb1]
  decide

set_option maxRecDepth 40000 in
/-- C1 counterexample: with every burst drawn of length 19 (rand() value
2034458192 gives burst_len 19), the producer writes 527 bursts for a total
of 10013 items: the final burst still runs to completion although only 6
items of the quota remain, overshooting it.  Draining all 10013 items
through the fifo ends with read_count = 10013, not the quota 10000. -/
theorem c1_conservation_cex :
    producer_writes (List.replicate 527 2034458192) = some 10013 ∧
    (run (fifo_init 100000)
        (List.replicate 10013 (Op.put 1) ++ List.replicate 10013 (Op.take 0))).map
      (fun p => (p.1.read_count, p.1.buffer_size)) = some (10013, 0) ∧
    (10013 : Nat) ≠ 10000 :=
  ⟨by decide, big_run_proj, by decide⟩

/-- C1 amended: once the producer has finished and the queue has drained,
the total number of items taken equals the total number the producer
wrote — which is the cumulative sum of whole bursts up to the first point
the 10000-item quota is exhausted.  Because the final burst always runs to
completion (the inner while loop does not consult the quota) and a burst
can reach 20 items, that total lies in [10000, 10019]; it equals 10000
exactly only for draw sequences whose burst sums happen to hit the quota
exactly. -/
theorem c1_conservation (cap : Nat) (draws : List Nat) (total : Nat) (ops : List Op)
    (h1 : 1 ≤ cap) (h2 : cap < U32)
    (hdr : ∀ r ∈ draws, r ≤ RAND_MAX)
    (hw : producer_writes draws = some total)
    (hops : numPuts ops = total) (hnr : Op.reset ∉ ops) (hnov : total < U32)
    (hdrain : (run (fifo_init cap) ops).map (fun p => p.1.buffer_size) = some 0) :
    (run (fifo_init cap) ops).map (fun p => p.1.read_count) = some total ∧
    10000 ≤ total ∧ total ≤ 10019 := by
  obtain ⟨⟨s2, o2, c2⟩, hp, hpt⟩ := Option.map_eq_some'.mp hdrain
  have hb0 : s2.buffer_size = 0 := hpt
  obtain ⟨hA, hB, -⟩ := run_book ops (fifo_init cap) s2 o2 c2 (fifo_init_wf cap h1 h2) hnr hp
  have hB2 : s2.buffer_size + numTakes ops = 0 + numPuts ops := hB
  have hnt : numTakes ops = total := by omega
  have hA2 : s2.read_count = (0 + numTakes ops) % U32 := hA
  have hrc : s2.read_count = total := by
    rw [hA2, Nat.zero_add, hnt, Nat.mod_eq_of_lt hnov]
  obtain ⟨hlo, hhi⟩ := producer_loop_bounds draws 10000 total (by norm_num) hdr hw
  refine ⟨?_, by omega, by omega⟩
  rw [hp, Option.map_some', hrc]

set_option maxRecDepth 40000 in
/-- Witness for C1 amended: the all-19-burst draw sequence, 10013 items
written and drained through a capacity-100000 fifo. -/
theorem c1_conservation_witness :
    ((run (fifo_init 100000)
        (List.replicate 10013 (Op.put 1) ++ List.replicate 10013 (Op.take 0))).map
      (fun p => p.1.read_count) = some 10013) ∧
    (10000 : Nat) ≤ 10013 ∧ (10013 : Nat) ≤ 10019 := by
  have hd : (run (fifo_init 100000)
      (List.replicate 10013 (Op.put 1) ++ List.replicate 10013 (Op.take 0))).map
      (fun p => p.1.buffer_size) = some 0 := by
    obtain ⟨p, hp, hpt⟩ := Option.map_eq_some'.mp big_run_proj
    rw [hp, Option.map_some']
    simp only [Prod.mk.injEq] at hpt
    exact congrArg some hpt.2
  have hops : numPuts (List.replicate 10013 (Op.put 1) ++ List.replicate 10013 (Op.take 0))
      = 10013 := by
    rw [numPuts_append, numPuts_replicate_put, numPuts_replicate_take]
  have hnr : Op.reset ∉
      List.replicate 10013 (Op.put 1) ++ List.replicate 10013 (Op.take 0) := by
    intro hm
    rcases List.mem_append.mp hm with hm2 | hm2 <;>
      exact absurd (List.eq_of_mem_replicate hm2) (by decide)
  exact c1_conservation 100000 (List.replicate 527 2034458192) 10013
    (List.replicate 10013 (Op.put 1) ++ List.replicate 10013 (Op.take 0))
    (by norm_num) (by norm_num [U32])
    (fun r hr => by rw [List.eq_of_mem_replicate hr]; decide)
    (by decide) hops hnr (by decide) hd
